import Mathlib

/-!
# OSS flexvolume plugin (`provider/oss/oss.go`)

A shallow embedding of the plugin's path parsing, credential-file upsert,
option validation and mount / unmount orchestration, followed by the theorems
that settle the specification's claims about them.

Conventions of the embedding.

* A Go `string` is a byte sequence.  It is embedded as `List Char`, one `Char`
  per byte; `len(s)` is `List.length` and `s[i:j]` is `drop`/`take`.
* The Go standard-library functions the plugin calls (`strings.Split`,
  `strings.HasPrefix`, `strings.Contains`, `strconv.Atoi`,
  `base64.StdEncoding.DecodeString`, `filepath.Base`, `filepath.Clean`) are
  embedded from their documented behaviour on a 64-bit Unix host.
* Everything the plugin asks of the machine (`utils.IsMounted`, `utils.Run`,
  `os.Remove`, ...) is answered by a `Host`, a family of oracles that see the
  calls made so far; every call is recorded in a trace.
* `log.*` calls are not embedded.
-/

namespace Oss

/-- A Go string, one `Char` per byte. -/
abbrev GoString := List Char

deriving instance DecidableEq for Except

/-! ## Standard library -/

/-- Go's `strings.Index(s, substr)`: position of the first occurrence of `substr`
in `s`, `none` for Go's `-1`. -/
def Index : GoString → GoString → Option Nat
  | [], substr => if substr = [] then some 0 else none
  | c :: cs, substr =>
    if substr.isPrefixOf (c :: cs) then some 0
    else (Index cs substr).map (· + 1)

/-- The loop of `strings.genSplit` for a non-empty separator: cut at the
leftmost occurrence, continue behind it.  `fuel` bounds the number of cuts. -/
def genSplit (sep : GoString) : Nat → GoString → List GoString
  | 0, s => [s]
  | fuel + 1, s =>
    match Index s sep with
    | none => [s]
    | some m => s.take m :: genSplit sep fuel (s.drop (m + sep.length))

/-- Go's `strings.Split(s, sep)` for a non-empty `sep` (every separator in the
plugin is a non-empty literal).  A non-empty separator occurs at most
`len(s)` times without overlap, so `len(s)` cuts are enough. -/
def Split (s sep : GoString) : List GoString :=
  genSplit sep s.length s

/-- Go's `strings.HasPrefix(s, prefix)`. -/
def HasPrefix (s pre : GoString) : Bool :=
  pre.isPrefixOf s

/-- Go's `strings.Contains(s, substr)`. -/
def Contains (s substr : GoString) : Bool :=
  (Index s substr).isSome

/-- Go's slice expression `s[lo:hi]` on a string: a run-time panic (`none`)
unless `0 ≤ lo ≤ hi ≤ len(s)`. -/
def slice (s : GoString) (lo hi : Int) : Option GoString :=
  if 0 ≤ lo ∧ lo ≤ hi ∧ hi ≤ (s.length : Int) then
    some ((s.drop lo.toNat).take (hi.toNat - lo.toNat))
  else none

/-- Value of a non-empty string of decimal digits, `none` when a byte is not
a digit or the string is empty (the digit loop of `strconv.ParseUint`, base
10). -/
def parseDigits (s : GoString) : Option Nat :=
  if s = [] then none
  else s.foldl (fun acc c =>
    match acc with
    | none => none
    | some n => if '0' ≤ c ∧ c ≤ '9' then some (n * 10 + (c.toNat - '0'.toNat)) else none)
    (some 0)

/-- Go's `strconv.Atoi(s)` with a 64-bit `int`: an optional sign, at least
one decimal digit, nothing else, and a value in `[-2^63, 2^63 - 1]`; `none`
is a non-nil error. -/
def Atoi (s : GoString) : Option Int :=
  match s with
  | [] => none
  | c :: cs =>
    let neg := c = '-'
    let digits := if c = '-' ∨ c = '+' then cs else s
    match parseDigits digits with
    | none => none
    | some n =>
      if neg then (if n ≤ 2 ^ 63 then some (-(n : Int)) else none)
      else (if n < 2 ^ 63 then some (n : Int) else none)

/-- The alphabet of `base64.StdEncoding`. -/
def encodeStd : GoString :=
  "ABCDEFGHIJKLMNOPQRSTUVWXYZabcdefghijklmnopqrstuvwxyz0123456789+/".toList

/-- The 6-bit value of an alphabet byte (`decodeMap`), `none` for Go's `0xff`. -/
def decodeMap (c : Char) : Option Nat :=
  let i := encodeStd.indexOf c
  if i < 64 then some i else none

/-- The bytes a quantum of `dlen` sextets decodes to: `dlen - 1` bytes of the
24-bit value `d0<<18 | d1<<12 | d2<<6 | d3`. -/
def quantumBytes (dbuf : List Nat) : GoString :=
  let val := dbuf.getD 0 0 * 2 ^ 18 + dbuf.getD 1 0 * 2 ^ 12 + dbuf.getD 2 0 * 2 ^ 6 + dbuf.getD 3 0
  ([val / 2 ^ 16 % 256, val / 2 ^ 8 % 256, val % 256].take (dbuf.length - 1)).map Char.ofNat

/-- Skips `'\n'` and `'\r'`, as the decoder does around padding. -/
def skipNewlines (s : GoString) : GoString :=
  s.dropWhile (fun c => c = '\n' ∨ c = '\r')

/-- The decoding loop of `base64.StdEncoding` (padded, not strict): `dbuf`
holds the sextets of the quantum being read, `out` the bytes decoded so far.
Line breaks are skipped, any other byte outside the alphabet is an error,
padding is accepted only to complete a quantum of 2 or 3 sextets and only at
the end of the input; `none` is a `CorruptInputError`. -/
def decodeLoop : GoString → List Nat → GoString → Option GoString
  | [], dbuf, out => if dbuf = [] then some out else none
  | c :: cs, dbuf, out =>
    match decodeMap c with
    | some v =>
      if dbuf.length = 3 then decodeLoop cs [] (out ++ quantumBytes (dbuf ++ [v]))
      else decodeLoop cs (dbuf ++ [v]) out
    | none =>
      if c = '\n' ∨ c = '\r' then decodeLoop cs dbuf out
      else if c ≠ '=' then none
      else if dbuf.length < 2 then none
      else if dbuf.length = 2 then
        match skipNewlines cs with
        | [] => none
        | p :: rest =>
          if p ≠ '=' then none
          else if skipNewlines rest = [] then some (out ++ quantumBytes dbuf) else none
      else if skipNewlines cs = [] then some (out ++ quantumBytes dbuf) else none

/-- Go's `base64.StdEncoding.DecodeString(s)`; `none` is a non-nil error. -/
def DecodeString (s : GoString) : Option GoString :=
  decodeLoop s [] []

/-- Go's `filepath.Base(path)` on Unix: the last element of the path, after
removing trailing separators; `"."` for the empty path, `"/"` for a path of
separators only. -/
def Base (path : GoString) : GoString :=
  if path = [] then ".".toList
  else
    let stripped := (path.reverse.dropWhile (· = '/')).reverse
    let last := (stripped.reverse.takeWhile (· ≠ '/')).reverse
    if last = [] then "/".toList else last

/-- The element stack of `filepath.Clean`: empty and `"."` elements are
skipped, `".."` removes the element before it when there is one to remove,
is dropped at the root, and is kept in a relative path. -/
def cleanElems (rooted : Bool) : List GoString → List GoString → List GoString
  | [], out => out
  | e :: es, out =>
    if e = [] ∨ e = ".".toList then cleanElems rooted es out
    else if e = "..".toList then
      match out.getLast? with
      | some l =>
        if l = "..".toList then cleanElems rooted es (out ++ [e])
        else cleanElems rooted es out.dropLast
      | none => if rooted then cleanElems rooted es out else cleanElems rooted es (out ++ [e])
    else cleanElems rooted es (out ++ [e])

/-- Go's `filepath.Clean(path)` on Unix: the shortest equivalent path by
purely lexical processing; `"."` for an empty result. -/
def Clean (path : GoString) : GoString :=
  let rooted := path.head? = some '/'
  let out := "/".toList.intercalate (cleanElems rooted (Split path "/".toList) [])
  if rooted then '/' :: out
  else if out = [] then ".".toList else out

/-! ## Identity resolver -/

/-- Source function `getPodInfoFromMountDir`.  The source calls
`filepath.Clean(mountDir)` as a statement and drops its result, so the split
is of `mountDir` itself.  The Go triple `(podID, volumeName, err)` is
`.ok (podID, volumeName)` when `err` is `nil` and `.error msg` (with both
strings empty in Go) otherwise. -/
def getPodInfoFromMountDir (mountDir : GoString) : Except GoString (GoString × GoString) :=
  let _cleaned := Clean mountDir
  let token := Split mountDir "/".toList
  let length := token.length
  if length < 5 then
    .error ("failed to parse mountDir ".toList ++ mountDir ++ " for CRD name and pod info".toList)
  else
    .ok (token.getD (length - 4) [], token.getD (length - 1) [])

/-! ## Data model and host -/

/-- Plugin options, `OssOptions`. -/
structure OssOptions where
  Bucket : GoString
  SubPath : GoString
  Uid : GoString
  Gid : GoString
  Url : GoString
  OtherOpts : GoString
  AkId : GoString
  AkSecret : GoString
  VolumeName : GoString
  SecretAkId : GoString
  SecretAkSec : GoString
  deriving DecidableEq

/-- The constant `CredentialFile`. -/
def CredentialFile : GoString := "/etc/passwd-ossfs".toList

/-- A call of the plugin to the machine, through `utils`, `os` or `ioutil`. -/
inductive Call
  | IsMounted (path : GoString)
  | IsFileExisting (path : GoString)
  | CreateDest (path : GoString)
  | Run (cmd : GoString)
  | GetLocalAK
  | ReadFile (path : GoString)
  | WriteFile (path data : GoString) (perm : Nat)
  | Remove (path : GoString)
  | Symlink (oldname newname : GoString)
  deriving DecidableEq

/-- The machine the plugin runs on.  Each oracle gets the calls made so far
in this invocation and the arguments of the new call.  A Go `error` is
`Option GoString`: `none` for `nil`, `some text` for an error whose
`Error()` is `text`. -/
structure Host where
  IsMounted : List Call → GoString → Bool
  IsFileExisting : List Call → GoString → Bool
  CreateDest : List Call → GoString → Option GoString
  Run : List Call → GoString → GoString × Option GoString
  GetLocalAK : List Call → GoString × GoString
  ReadFile : List Call → GoString → GoString × Option GoString
  WriteFile : List Call → GoString → GoString → Nat → Option GoString
  Remove : List Call → GoString → Option GoString
  Symlink : List Call → GoString → GoString → Option GoString

/-- How an operation of the plugin ends. -/
inductive Result
  /-- Returned `utils.Result{Status: "Success"}` (also `utils.Succeed()`). -/
  | Success
  /-- The call `utils.FinishError(message)` ended the process. -/
  | FinishError (message : GoString)
  /-- A Go run-time panic ended the process. -/
  | Panic
  deriving DecidableEq

/-! ## Credential store -/

/-- The loop of `saveCredential` over the lines of the old content (source
lines 289-295); `newContentStr` is the accumulator of the same name. -/
def saveCredentialLoop (bucket : GoString) : List GoString → GoString → GoString
  | [], newContentStr => newContentStr
  | line :: rest, newContentStr =>
    let lineList := Split line ":".toList
    if lineList.length ≠ 3 ∨ lineList.getD 0 [] = bucket then
      saveCredentialLoop bucket rest newContentStr
    else
      saveCredentialLoop bucket rest (newContentStr ++ line ++ "\n".toList)

/-- The new content of the credential file (source lines 287-297), computed
from the old content. -/
def newContent (options : OssOptions) (oldContentStr : GoString) : GoString :=
  let newContentStr := saveCredentialLoop options.Bucket (Split oldContentStr "\n".toList) []
  options.Bucket ++ ":".toList ++ options.AkId ++ ":".toList ++ options.AkSecret
    ++ "\n".toList ++ newContentStr

/-- Source function `saveCredential`, started after the calls `tr`: the
returned error and the calls made up to its return.  `0640` is `416`. -/
def saveCredential (h : Host) (tr : List Call) (options : OssOptions) :
    Option GoString × List Call :=
  let tr1 := tr ++ [Call.IsFileExisting CredentialFile]
  let read : (GoString × Option GoString) × List Call :=
    if h.IsFileExisting tr CredentialFile then
      (h.ReadFile tr1 CredentialFile, tr1 ++ [Call.ReadFile CredentialFile])
    else (([], none), tr1)
  match read with
  | ((_, some err), tr2) => (some err, tr2)
  | ((oldContentByte, none), tr2) =>
    let newContentStr := newContent options oldContentByte
    (h.WriteFile tr2 CredentialFile newContentStr 416,
      tr2 ++ [Call.WriteFile CredentialFile newContentStr 416])

/-! ## Option validation -/

/-- The checks of `checkOptions` on `OtherOpts`, `Uid` and `Gid` (source
lines 328-349): the returned error and the options as they are left. -/
def checkFormats (opt : OssOptions) : Option GoString × OssOptions :=
  if opt.OtherOpts ≠ [] ∧ ¬ HasPrefix opt.OtherOpts "-o ".toList then
    (some ("Oss: OtherOpts format error: ".toList ++ opt.OtherOpts), opt)
  else
    let uid : Option GoString × OssOptions :=
      if opt.Uid = [] then (none, { opt with Uid := "0".toList })
      else if (Atoi opt.Uid).isNone then
        (some ("Oss: uid is not integer: ".toList ++ opt.Uid), opt)
      else (none, opt)
    match uid with
    | (some err, opt1) => (some err, opt1)
    | (none, opt1) =>
      if opt1.Gid = [] then (none, { opt1 with Gid := "0".toList })
      else if (Atoi opt1.Gid).isNone then
        (some ("Oss: gid is not integer: ".toList ++ opt1.Gid), opt1)
      else (none, opt1)

/-- Source function `checkOptions`, started after the calls `tr`: the returned
error, the options as the function leaves them (it writes through the
pointer), and the calls made up to its return. -/
def checkOptions (h : Host) (tr : List Call) (opt : OssOptions) :
    Option GoString × OssOptions × List Call :=
  if opt.Url = [] ∨ opt.Bucket = [] then
    (some "Oss: Url or bucket is empty".toList, opt, tr)
  else
    let secrets : Option GoString × OssOptions :=
      if opt.SecretAkId ≠ [] ∧ opt.SecretAkSec ≠ [] then
        match DecodeString opt.SecretAkId with
        | none => (some "Oss: SecretAkId decode error".toList, opt)
        | some tmpId =>
          match DecodeString opt.SecretAkSec with
          | none => (some "Oss: SecretAkSec decode error".toList, { opt with AkId := tmpId })
          | some tmpSec => (none, { opt with AkId := tmpId, AkSecret := tmpSec })
      else (none, opt)
    match secrets with
    | (some err, opt1) => (some err, opt1, tr)
    | (none, opt1) =>
      if opt1.AkId = [] ∨ opt1.AkSecret = [] then
        let checked := checkFormats
          { opt1 with AkId := (h.GetLocalAK tr).1, AkSecret := (h.GetLocalAK tr).2 }
        (checked.1, checked.2, tr ++ [Call.GetLocalAK])
      else
        let checked := checkFormats opt1
        (checked.1, checked.2, tr)

/-! ## Mount orchestrator -/

/-- The format `"/oss/%s~%s"` of the shared mount path. -/
def ossPath (podID volumeName : GoString) : GoString :=
  "/oss/".toList ++ podID ++ "~".toList ++ volumeName

/-- Source function `checkSubpathVolumes`, started after the calls `tr`: the
calls made up to its return, or `none` when the slice `tmpPid[1 : len(tmpPid)-1]`
panics. -/
def checkSubpathVolumes (h : Host) (tr : List Call) (mountPoint : GoString) :
    Option (List Call) :=
  let volumeName := Base mountPoint
  let podsSplit := Split mountPoint "pods".toList
  let derived : Option GoString :=
    if podsSplit.length ≥ 2 then
      let volumesSplit := Split (podsSplit.getD 1 []) "volumes".toList
      if volumesSplit.length ≥ 2 then
        let tmpPid := volumesSplit.getD 0 []
        slice tmpPid 1 ((tmpPid.length : Int) - 1)
      else some []
    else some []
  match derived with
  | none => none
  | some podId =>
    if podId ≠ [] then
      let subPathRootDir :=
        "/var/lib/kubelet/pods/".toList ++ podId ++ "/volume-subpaths/".toList ++ volumeName
      let tr1 := tr ++ [Call.IsFileExisting subPathRootDir]
      if ¬ h.IsFileExisting tr subPathRootDir then some tr1
      else
        let checkCmd := "mount | grep ".toList ++ subPathRootDir
        let tr2 := tr1 ++ [Call.Run checkCmd]
        match h.Run tr1 checkCmd with
        | (_, some _) => some tr2
        | (out, none) =>
          some ((Split out "\n".toList).foldl (fun trace mntItem =>
            let strList := Split mntItem " ".toList
            if strList.length > 3 then
              trace ++ [Call.Run ("fusermount -u ".toList ++ strList.getD 2 [])]
            else trace) tr2)
    else some tr

/-- Source function `OssPlugin.Unmount`: how it ends and the calls it made. -/
def Unmount (h : Host) (mountPoint : GoString) : Result × List Call :=
  match checkSubpathVolumes h [] mountPoint with
  | none => (Result.Panic, [])
  | some tr1 =>
    let tr2 := tr1 ++ [Call.Remove mountPoint]
    match h.Remove tr1 mountPoint with
    | some err =>
      (Result.FinishError ("Fail to unlink: ".toList ++ mountPoint ++ " with Error: ".toList ++ err),
        tr2)
    | none =>
      match getPodInfoFromMountDir mountPoint with
      | .error err =>
        (Result.FinishError ("Oss SubPath, Get Pod Info error: ".toList ++ err), tr2)
      | .ok (podID, volumeName) =>
        let ossMountPath := ossPath podID volumeName
        let tr3 := tr2 ++ [Call.IsMounted ossMountPath]
        if ¬ h.IsMounted tr2 ossMountPath then (Result.Success, tr3)
        else
          let umntCmd := "fusermount -u ".toList ++ ossMountPath
          let tr4 := tr3 ++ [Call.Run umntCmd]
          match (h.Run tr3 umntCmd).2 with
          | some err =>
            if Contains err "Device or resource busy".toList then
              let lazyUmntCmd := "fusermount -uz ".toList ++ ossMountPath
              let tr5 := tr4 ++ [Call.Run lazyUmntCmd]
              match (h.Run tr4 lazyUmntCmd).2 with
              | some err2 => (Result.FinishError ("Lazy Umount OSS Fail: ".toList ++ err2), tr5)
              | none => (Result.Success, tr5)
            else (Result.FinishError ("Umount OSS Fail: ".toList ++ err), tr4)
          | none =>
            let tr5 := tr4 ++ [Call.Remove ossMountPath]
            match h.Remove tr4 ossMountPath with
            | some err =>
              (Result.FinishError ("Oss, remove mount path fail: ".toList ++ err), tr5)
            | none => (Result.Success, tr5)

/-- The tail of `OssPlugin.Mount` from the computation of `ossSubPath` on
(source lines 126-154), started after the calls `tr`. -/
def mountSubPath (h : Host) (tr : List Call) (opt : OssOptions)
    (mountPath ossMountPath : GoString) : Result × List Call :=
  let sub : Option GoString × GoString × List Call :=
    if opt.SubPath = [] then (none, ossMountPath, tr)
    else
      let ossSubPath := ossMountPath ++ "/".toList ++ opt.SubPath
      let tr1 := tr ++ [Call.CreateDest ossSubPath]
      match h.CreateDest tr ossSubPath with
      | some err =>
        (some ("Oss Subpath, Create Oss SubPath: ".toList ++ ossSubPath ++ " error: ".toList ++ err),
          ossSubPath, tr1)
      | none =>
        let chownCmd := "chown ".toList ++ opt.Uid ++ ":".toList ++ opt.Gid ++ " ".toList ++ ossSubPath
        let tr2 := tr1 ++ [Call.Run chownCmd]
        match h.Run tr1 chownCmd with
        | (out, some err) =>
          (some ("Oss Subpath, Chown fail: ".toList ++ err ++ ", out: ".toList ++ out
            ++ ", cmd: ".toList ++ chownCmd), ossSubPath, tr2)
        | (_, none) => (none, ossSubPath, tr2)
  match sub with
  | (some message, _, tr3) => (Result.FinishError message, tr3)
  | (none, ossSubPath, tr3) =>
    let tr4 := tr3 ++ [Call.Remove mountPath]
    match h.Remove tr3 mountPath with
    | some err =>
      (Result.FinishError ("Oss Subpath, remove mount path fail: ".toList ++ err), tr4)
    | none =>
      let tr5 := tr4 ++ [Call.Symlink ossSubPath mountPath]
      match h.Symlink tr4 ossSubPath mountPath with
      | some err =>
        (Result.FinishError ("Oss Subpath, create symlink fail: ".toList ++ err
          ++ " srcPath: ".toList ++ ossSubPath ++ " destPath: ".toList ++ mountPath), tr5)
      | none => (Result.Success, tr5)

/-- The part of `OssPlugin.Mount` that mounts the bucket on `ossMountPath`
when it is not mounted yet (source lines 113-124), followed by the tail. -/
def mountBucket (h : Host) (tr : List Call) (opt : OssOptions)
    (mountPath ossMountPath : GoString) : Result × List Call :=
  let tr1 := tr ++ [Call.IsMounted ossMountPath]
  if ¬ h.IsMounted tr ossMountPath then
    let args := opt.Bucket ++ " ".toList ++ ossMountPath ++ " -ourl=".toList ++ opt.Url
      ++ " -o allow_other ".toList ++ opt.OtherOpts
    let systemdCmd := "which systemd-run".toList
    let tr2 := tr1 ++ [Call.Run systemdCmd]
    let mntCmd :=
      match (h.Run tr1 systemdCmd).2 with
      | some _ => "ossfs ".toList ++ args
      | none => "systemd-run --scope -- ossfs ".toList ++ args
    let tr3 := tr2 ++ [Call.Run mntCmd]
    match h.Run tr2 mntCmd with
    | (out, some err) =>
      (Result.FinishError ("Create OSS volume fail: ".toList ++ err ++ ", out: ".toList ++ out), tr3)
    | (_, none) => mountSubPath h tr3 opt mountPath ossMountPath
  else mountSubPath h tr1 opt mountPath ossMountPath

/-- Source function `OssPlugin.Mount`: how it ends and the calls it made.
The argument dump built for the log is not embedded. -/
def Mount (h : Host) (opts : OssOptions) (mountPath : GoString) : Result × List Call :=
  match checkOptions h [] opts with
  | (some err, _, tr1) => (Result.FinishError ("OSS: check option error: ".toList ++ err), tr1)
  | (none, opt, tr1) =>
    let tr2 := tr1 ++ [Call.IsMounted mountPath]
    if h.IsMounted tr1 mountPath then (Result.Success, tr2)
    else
      let tr3 := tr2 ++ [Call.CreateDest mountPath]
      match h.CreateDest tr2 mountPath with
      | some err =>
        (Result.FinishError ("Oss, Mount fail with create Path error: ".toList ++ err ++ mountPath),
          tr3)
      | none =>
        match saveCredential h tr3 opt with
        | (some err, tr4) => (Result.FinishError ("Oss, Save AK file fail: ".toList ++ err), tr4)
        | (none, tr4) =>
          match getPodInfoFromMountDir mountPath with
          | .error err => (Result.FinishError ("Oss, Get Pod Info error: ".toList ++ err), tr4)
          | .ok (podID, _) =>
            let ossMountPath := ossPath podID opt.VolumeName
            let tr5 := tr4 ++ [Call.CreateDest ossMountPath]
            match h.CreateDest tr4 ossMountPath with
            | some err =>
              (Result.FinishError ("Oss, Create oss Mount Path error: ".toList ++ err
                ++ ossMountPath), tr5)
            | none => mountBucket h tr5 opt mountPath ossMountPath

/-! ## Notions used in the statements -/

/-- The lines `saveCredential` keeps: exactly 3 fields between `:` and a first
field other than the bucket. -/
def keptLine (bucket line : GoString) : Bool :=
  (Split line ":".toList).length = 3 ∧ (Split line ":".toList).head? ≠ some bucket

/-- A record for a bucket name: a line with exactly 3 fields between `:`
whose first field is the name. -/
def isRecordFor (name line : GoString) : Bool :=
  (Split line ":".toList).length = 3 ∧ (Split line ":".toList).head? = some name

/-- A non-empty line whose first field is the name, whatever its number of
fields. -/
def hasFirstField (name line : GoString) : Bool :=
  line ≠ [] ∧ (Split line ":".toList).head? = some name

/-- The records of a credential file for a bucket name. -/
def recordsFor (content name : GoString) : List GoString :=
  (Split content "\n".toList).filter (isRecordFor name)

/-- The non-empty lines of a credential file whose first field is the name. -/
def linesFor (content name : GoString) : List GoString :=
  (Split content "\n".toList).filter (hasFirstField name)

/-- A host on which every call succeeds, nothing is mounted, no file exists
and commands print nothing. -/
def quietHost : Host where
  IsMounted := fun _ _ => false
  IsFileExisting := fun _ _ => false
  CreateDest := fun _ _ => none
  Run := fun _ _ => ([], none)
  GetLocalAK := fun _ => ("id".toList, "secret".toList)
  ReadFile := fun _ _ => ([], none)
  WriteFile := fun _ _ _ _ => none
  Remove := fun _ _ => none
  Symlink := fun _ _ _ => none

/-- A request for bucket `b` at endpoint `u`, every other option empty. -/
def plainOptions : OssOptions where
  Bucket := "b".toList
  SubPath := []
  Uid := []
  Gid := []
  Url := "u".toList
  OtherOpts := []
  AkId := []
  AkSecret := []
  VolumeName := []
  SecretAkId := []
  SecretAkSec := []

/-- A host whose credential file exists with the given content, and on which
every call succeeds. -/
def credentialHost (content : GoString) : Host :=
  { quietHost with
    IsFileExisting := fun _ path => path = CredentialFile
    ReadFile := fun _ _ => (content, none) }

/-- A host on which exactly the given path is a mount point; no file exists
and every call succeeds. -/
def mountedHost (mounted : GoString) : Host :=
  { quietHost with IsMounted := fun _ path => path = mounted }

/-! ## The standard-library models on documented examples -/

theorem Split_examples :
    Split "a/b//c".toList "/".toList = ["a".toList, "b".toList, [], "c".toList] ∧
    Split "/a/".toList "/".toList = [[], "a".toList, []] ∧
    Split "".toList "/".toList = [[]] ∧
    Split "xpodsypodpodsz".toList "pods".toList = ["x".toList, "ypod".toList, "z".toList] ∧
    Split "aaa".toList "aa".toList = [[], "a".toList] ∧
    Split "a,b,c".toList ",".toList = ["a".toList, "b".toList, "c".toList] ∧
    Split " xyz ".toList " ".toList = [[], "xyz".toList, []] := by
  decide

theorem Atoi_examples :
    Atoi "0".toList = some 0 ∧ Atoi "-5".toList = some (-5) ∧ Atoi "+7".toList = some 7 ∧
    Atoi "".toList = none ∧ Atoi "+".toList = none ∧ Atoi "12a".toList = none ∧
    Atoi " 1".toList = none ∧ Atoi "1_000".toList = none ∧
    Atoi "9223372036854775807".toList = some 9223372036854775807 ∧
    Atoi "9223372036854775808".toList = none ∧
    Atoi "-9223372036854775808".toList = some (-9223372036854775808) ∧
    Atoi "-9223372036854775809".toList = none := by
  decide

theorem DecodeString_examples :
    DecodeString "".toList = some [] ∧
    DecodeString "aGVsbG8=".toList = some "hello".toList ∧
    DecodeString "YWJj".toList = some "abc".toList ∧
    DecodeString "YQ==".toList = some "a".toList ∧
    DecodeString "aGk=\n".toList = some "hi".toList ∧
    DecodeString "aG\r\nk=".toList = some "hi".toList ∧
    DecodeString "aGVsbG8".toList = none ∧
    DecodeString "YQ=".toList = none ∧
    DecodeString "YQ==YQ==".toList = none ∧
    DecodeString "=".toList = none ∧
    DecodeString "!".toList = none := by
  decide

theorem Base_Clean_examples :
    Base "/a/b/c/".toList = "c".toList ∧ Base "///".toList = "/".toList ∧
    Base "abc".toList = "abc".toList ∧ Base "".toList = ".".toList ∧
    Clean "/a/b/../c//d/./".toList = "/a/c/d".toList ∧
    Clean "../a/../../b".toList = "../../b".toList ∧
    Clean "/..".toList = "/".toList ∧ Clean "".toList = ".".toList ∧
    Clean "a/..".toList = ".".toList ∧ Clean "a//b/".toList = "a/b".toList := by
  decide

theorem slice_examples :
    slice "abc".toList 1 2 = some "b".toList ∧ slice "ab".toList 1 1 = some [] ∧
    slice "a".toList 1 0 = none ∧ slice "".toList 1 (-1) = none := by
  decide

/-! ## Lists seen from the end -/

theorem reverse_getElem?_getD {α : Type} (l : List α) (d : α) (k : Nat) (hk : k < l.length) :
    l.reverse[k]? = some (l.getD (l.length - 1 - k) d) := by
  rw [List.getElem?_reverse hk, List.getD_eq_getElem?_getD]
  have : l.length - 1 - k < l.length := by omega
  simp [List.getElem?_eq_getElem this]

theorem getLast?_getD {α : Type} (l : List α) (d : α) (hl : 0 < l.length) :
    l.getLast? = some (l.getD (l.length - 1) d) := by
  rw [List.getLast?_eq_getElem?, List.getD_eq_getElem?_getD]
  have : l.length - 1 < l.length := by omega
  simp [List.getElem?_eq_getElem this]

/-- C1. Splitting the mount path on `/`: with at least 5 segments the resolver
succeeds with exactly (4th-from-last segment, last segment); with fewer it
fails with an error and yields no identity. -/
theorem getPodInfoFromMountDir_segments (mountDir : GoString) :
    (5 ≤ (Split mountDir "/".toList).length →
      ∃ podID volumeName,
        getPodInfoFromMountDir mountDir = .ok (podID, volumeName) ∧
        (Split mountDir "/".toList).reverse[3]? = some podID ∧
        (Split mountDir "/".toList).getLast? = some volumeName) ∧
    ((Split mountDir "/".toList).length < 5 →
      ∃ message, getPodInfoFromMountDir mountDir = .error message) := by
  constructor
  · intro h5
    refine ⟨(Split mountDir "/".toList).getD ((Split mountDir "/".toList).length - 4) [],
      (Split mountDir "/".toList).getD ((Split mountDir "/".toList).length - 1) [], ?_, ?_, ?_⟩
    · simp only [getPodInfoFromMountDir]
      rw [if_neg (by omega)]
    · rw [reverse_getElem?_getD _ [] 3 (by omega)]
      congr 2
    · exact getLast?_getD _ [] (by omega)
  · intro h5
    refine ⟨"failed to parse mountDir ".toList ++ mountDir
      ++ " for CRD name and pod info".toList, ?_⟩
    simp only [getPodInfoFromMountDir]
    rw [if_pos h5]

/-- C1, the example of the specification. -/
theorem getPodInfoFromMountDir_segments_witness :
    getPodInfoFromMountDir "/var/lib/kubelet/pods/ABC/volumes/driver/vol1".toList
      = .ok ("ABC".toList, "vol1".toList) ∧
    (Split "/var/lib/kubelet/pods/ABC/volumes/driver/vol1".toList "/".toList).length = 9 ∧
    (∃ message, getPodInfoFromMountDir "/pods/ABC/vol1".toList = .error message) := by
  refine ⟨by decide, by decide, ?_⟩
  exact (getPodInfoFromMountDir_segments "/pods/ABC/vol1".toList).2 (by decide)

/-! ## Facts about `Split` -/

theorem Index_nil {sep : GoString} (hsep : sep ≠ []) : Index [] sep = none := by
  simp [Index, hsep]

theorem genSplit_succ {sep : GoString} (hsep : sep ≠ []) :
    ∀ (fuel : Nat) (s : GoString), s.length ≤ fuel →
      genSplit sep (fuel + 1) s = genSplit sep fuel s := by
  intro fuel
  induction fuel with
  | zero =>
    intro s hs
    have : s = [] := List.length_eq_zero.mp (by omega)
    subst this
    simp [genSplit, Index_nil hsep]
  | succ n ih =>
    intro s hs
    rw [genSplit, genSplit]
    cases hI : Index s sep with
    | none => rfl
    | some m =>
      simp only
      have hlen : 0 < sep.length := List.length_pos.mpr hsep
      rw [ih]
      simp only [List.length_drop]
      omega

theorem genSplit_of_le {sep : GoString} (hsep : sep ≠ []) (s : GoString) :
    ∀ (k : Nat), genSplit sep (s.length + k) s = genSplit sep s.length s := by
  intro k
  induction k with
  | zero => rfl
  | succ n ih =>
    rw [← Nat.add_assoc, genSplit_succ hsep _ _ (by omega), ih]

/-- One step of `Split`: cut at the first occurrence of the separator. -/
theorem Split_step {sep : GoString} (hsep : sep ≠ []) (s : GoString) :
    Split s sep =
      match Index s sep with
      | none => [s]
      | some m => s.take m :: Split (s.drop (m + sep.length)) sep := by
  unfold Split
  rw [← genSplit_succ hsep _ _ (Nat.le_refl _), genSplit]
  cases hI : Index s sep with
  | none => rfl
  | some m =>
    simp only
    have h : s.length = (s.drop (m + sep.length)).length
        + (s.length - (s.drop (m + sep.length)).length) := by
      simp only [List.length_drop]; omega
    rw [h, genSplit_of_le hsep]

theorem Index_singleton_of_not_mem (c : Char) :
    ∀ (s : GoString), c ∉ s → Index s [c] = none := by
  intro s
  induction s with
  | nil => intro _; simp [Index]
  | cons x xs ih =>
    intro h
    have hx : c ≠ x := fun e => h (by simp [e])
    have hxs : c ∉ xs := fun e => h (by simp [e])
    simp [Index, List.isPrefixOf, hx, ih hxs]

theorem Index_singleton_append (c : Char) (rest : GoString) :
    ∀ (p : GoString), c ∉ p → Index (p ++ c :: rest) [c] = some p.length := by
  intro p
  induction p with
  | nil => intro _; simp [Index, List.isPrefixOf]
  | cons x xs ih =>
    intro h
    have hx : c ≠ x := fun e => h (by simp [e])
    have hxs : c ∉ xs := fun e => h (by simp [e])
    simp [Index, List.isPrefixOf, hx, ih hxs]

/-- A string without the separator byte is a single piece. -/
theorem Split_singleton_of_not_mem (c : Char) (s : GoString) (h : c ∉ s) :
    Split s [c] = [s] := by
  rw [Split_step (by simp), Index_singleton_of_not_mem c s h]

/-- The first piece ends at the first separator byte. -/
theorem Split_singleton_append (c : Char) (p rest : GoString) (h : c ∉ p) :
    Split (p ++ c :: rest) [c] = p :: Split rest [c] := by
  rw [Split_step (by simp), Index_singleton_append c rest p h]
  simp

/-- No piece of a split on one byte contains that byte. -/
theorem not_mem_of_mem_Split (c : Char) :
    ∀ (n : Nat) (s : GoString), s.length ≤ n → ∀ x ∈ Split s [c], c ∉ x := by
  intro n
  induction n with
  | zero =>
    intro s hs x hx
    have : s = [] := List.length_eq_zero.mp (by omega)
    subst this
    rw [Split_singleton_of_not_mem c [] (by simp)] at hx
    simp at hx
    simp [hx]
  | succ n ih =>
    intro s hs x hx
    by_cases hc : c ∈ s
    · obtain ⟨p, rest, rfl, hp⟩ := List.eq_append_cons_of_mem hc
      rw [Split_singleton_append c p rest hp] at hx
      rcases List.mem_cons.mp hx with rfl | hx
      · exact hp
      · refine ih rest ?_ x hx
        simp at hs
        omega
    · rw [Split_singleton_of_not_mem c s hc] at hx
      simp at hx
      simpa [hx] using hc

theorem Split_ne_nil (c : Char) (s : GoString) : Split s [c] ≠ [] := by
  rw [Split_step (by simp)]
  cases Index s [c] <;> simp

theorem Split_eq_splitOn_aux (c : Char) :
    ∀ (n : Nat) (s : GoString), s.length ≤ n → Split s [c] = s.splitOn c := by
  intro n
  induction n with
  | zero =>
    intro s hs
    have : s = [] := List.length_eq_zero.mp (by omega)
    subst this
    rw [Split_singleton_of_not_mem c [] (by simp)]
    rfl
  | succ n ih =>
    intro s hs
    by_cases hc : c ∈ s
    · obtain ⟨p, rest, rfl, hp⟩ := List.eq_append_cons_of_mem hc
      rw [Split_singleton_append c p rest hp, ih rest (by simp at hs; omega)]
      unfold List.splitOn
      have hnot : ∀ x ∈ p, ¬ (x == c) = true := by
        intro x hx e
        exact hp ((beq_iff_eq.mp e) ▸ hx)
      rw [List.splitOnP_first (fun x => x == c) p hnot c (by simp) rest]
    · rw [Split_singleton_of_not_mem c s hc]
      unfold List.splitOn
      have hnot : ∀ x ∈ s, ¬ (x == c) = true := by
        intro x hx e
        exact hc ((beq_iff_eq.mp e) ▸ hx)
      rw [List.splitOnP_eq_single (fun x => x == c) s hnot]

theorem Index_some_drop (sep : GoString) :
    ∀ (s : GoString) (m : Nat), Index s sep = some m →
      s = s.take m ++ sep ++ s.drop (m + sep.length) := by
  intro s
  induction s with
  | nil =>
    intro m hI
    by_cases hs : sep = []
    · subst hs; simp
    · simp [Index, hs] at hI
  | cons x xs ih =>
    intro m hI
    rw [Index] at hI
    by_cases hp : sep.isPrefixOf (x :: xs) = true
    · rw [if_pos hp] at hI
      have hm : m = 0 := (Option.some.inj hI).symm
      subst hm
      obtain ⟨t, ht⟩ := List.isPrefixOf_iff_prefix.mp hp
      rw [← ht]
      simp
    · rw [if_neg hp] at hI
      cases hI2 : Index xs sep with
      | none => simp [hI2] at hI
      | some k =>
        rw [hI2] at hI
        have hm : m = k + 1 := by simpa using hI.symm
        subst hm
        have := ih k hI2
        simp only [List.take_succ_cons, List.cons_append, Nat.add_right_comm k 1 sep.length,
          List.drop_succ_cons]
        rw [← this]

theorem intercalate_Split_aux {sep : GoString} (hsep : sep ≠ []) :
    ∀ (n : Nat) (s : GoString), s.length ≤ n →
      (Split s sep ≠ [] ∧ sep.intercalate (Split s sep) = s) := by
  intro n
  induction n with
  | zero =>
    intro s hs
    have : s = [] := List.length_eq_zero.mp (by omega)
    subst this
    rw [Split_step hsep, Index_nil hsep]
    simp [List.intercalate]
  | succ n ih =>
    intro s hs
    rw [Split_step hsep]
    cases hI : Index s sep with
    | none => simp [List.intercalate]
    | some m =>
      simp only
      have hdec := Index_some_drop sep s m hI
      have hlen : (s.drop (m + sep.length)).length ≤ n := by
        have := List.length_pos.mpr hsep
        simp only [List.length_drop]
        omega
      obtain ⟨hne, hjoin⟩ := ih (s.drop (m + sep.length)) hlen
      refine ⟨by simp, ?_⟩
      obtain ⟨y, ys, hy⟩ := List.exists_cons_of_ne_nil hne
      rw [hy] at hjoin ⊢
      have : sep.intercalate (s.take m :: y :: ys)
          = s.take m ++ sep ++ sep.intercalate (y :: ys) := by
        simp [List.intercalate, List.intersperse]
      rw [this, hjoin]
      exact hdec.symm

/-- On a one-byte separator, `Split` is the library's `List.splitOn`. -/
theorem Split_eq_splitOn (c : Char) (s : GoString) : Split s [c] = s.splitOn c :=
  Split_eq_splitOn_aux c s.length s (Nat.le_refl _)

/-- Joining the pieces of a split with the separator gives the string back. -/
theorem intercalate_Split {sep : GoString} (hsep : sep ≠ []) (s : GoString) :
    sep.intercalate (Split s sep) = s :=
  (intercalate_Split_aux hsep s.length s (Nat.le_refl _)).2

/-! ## Credential store -/

theorem saveCredentialLoop_eq (bucket : GoString) :
    ∀ (lines : List GoString) (acc : GoString),
      saveCredentialLoop bucket lines acc =
        acc ++ (lines.filter (keptLine bucket)).flatMap (· ++ "\n".toList) := by
  intro lines
  induction lines with
  | nil => intro acc; simp [saveCredentialLoop]
  | cons line rest ih =>
    intro acc
    have hhead : (Split line ":".toList).head? = some ((Split line ":".toList).getD 0 []) := by
      have := Split_ne_nil ':' line
      cases h : Split line ":".toList with
      | nil => exact absurd h this
      | cons a l => simp
    by_cases hk : keptLine bucket line = true
    · have hk2 := hk
      simp only [keptLine, hhead, decide_eq_true_eq, ne_eq, Option.some.injEq] at hk2
      rw [saveCredentialLoop]
      rw [if_neg (by tauto), ih, List.filter_cons_of_pos hk]
      simp [List.flatMap_cons]
    · have hk2 := hk
      simp only [keptLine, hhead, decide_eq_true_eq, ne_eq, Option.some.injEq] at hk2
      rw [saveCredentialLoop]
      rw [if_pos (by tauto), ih, List.filter_cons_of_neg hk]

theorem newContent_eq (options : OssOptions) (oldContent : GoString) :
    newContent options oldContent =
      options.Bucket ++ ":".toList ++ options.AkId ++ ":".toList ++ options.AkSecret
        ++ "\n".toList
        ++ ((Split oldContent "\n".toList).filter (keptLine options.Bucket)).flatMap
            (· ++ "\n".toList) := by
  simp [newContent, saveCredentialLoop_eq]

/-- When the credential file is absent or read without error, `saveCredential`
ends with the write of `newContent` and returns what the write returns. -/
theorem saveCredential_eq (h : Host) (tr : List Call) (options : OssOptions)
    (oldContent : GoString)
    (hold : (h.IsFileExisting tr CredentialFile = false ∧ oldContent = []) ∨
      (h.IsFileExisting tr CredentialFile = true ∧
        h.ReadFile (tr ++ [Call.IsFileExisting CredentialFile]) CredentialFile
          = (oldContent, none))) :
    ∃ tr2, saveCredential h tr options =
      (h.WriteFile tr2 CredentialFile (newContent options oldContent) 416,
       tr2 ++ [Call.WriteFile CredentialFile (newContent options oldContent) 416]) := by
  rcases hold with ⟨hex, rfl⟩ | ⟨hex, hrd⟩
  · exact ⟨tr ++ [Call.IsFileExisting CredentialFile], by simp [saveCredential, hex]⟩
  · exact ⟨tr ++ [Call.IsFileExisting CredentialFile] ++ [Call.ReadFile CredentialFile],
      by simp [saveCredential, hex, hrd]⟩

/-- Splitting newline-terminated lines gives the lines back, and an empty
piece behind the last newline. -/
theorem Split_flatMap_newline :
    ∀ (ls : List GoString), (∀ l ∈ ls, '\n' ∉ l) →
      Split (ls.flatMap (· ++ "\n".toList)) "\n".toList = ls ++ [[]] := by
  intro ls
  induction ls with
  | nil =>
    intro _
    exact Split_singleton_of_not_mem '\n' [] (by simp)
  | cons l rest ih =>
    intro hl
    have h1 : (l :: rest).flatMap (· ++ "\n".toList)
        = l ++ '\n' :: rest.flatMap (· ++ "\n".toList) := by
      simp [List.flatMap_cons]
    rw [h1]
    have h2 := Split_singleton_append '\n' l (rest.flatMap (· ++ "\n".toList))
      (hl l (by simp))
    have h3 := ih (fun x hx => hl x (by simp [hx]))
    have e : "\n".toList = ['\n'] := rfl
    rw [e] at h2 h3 ⊢
    rw [h2, h3]
    rfl

theorem length_Split_nil : (Split [] ":".toList).length = 1 := by decide

/-- The lines of the new content: the new record, the kept lines, and the
empty piece behind the last newline. -/
theorem Split_newContent (options : OssOptions) (oldContent : GoString)
    (hb : '\n' ∉ options.Bucket) (hi : '\n' ∉ options.AkId) (hs : '\n' ∉ options.AkSecret) :
    Split (newContent options oldContent) "\n".toList =
      (options.Bucket ++ ":".toList ++ options.AkId ++ ":".toList ++ options.AkSecret)
        :: ((Split oldContent "\n".toList).filter (keptLine options.Bucket) ++ [[]]) := by
  rw [newContent_eq]
  have hkept : ∀ l ∈ (Split oldContent "\n".toList).filter (keptLine options.Bucket),
      '\n' ∉ l := by
    intro l hl
    exact not_mem_of_mem_Split '\n' _ oldContent (Nat.le_refl _) l (List.mem_filter.mp hl).1
  have h3 := Split_flatMap_newline _ hkept
  have hfirst : '\n' ∉ options.Bucket ++ ":".toList ++ options.AkId ++ ":".toList
      ++ options.AkSecret := by
    simp [hb, hi, hs]
  have h2 := Split_singleton_append '\n' _
    (((Split oldContent "\n".toList).filter (keptLine options.Bucket)).flatMap
      (· ++ "\n".toList)) hfirst
  have e : "\n".toList = ['\n'] := rfl
  rw [e] at h2 h3 ⊢
  rw [← h3, ← h2]
  simp

/-- The first field of the new record is the bucket. -/
theorem head_Split_record (bucket rest : GoString) (hb : ':' ∉ bucket) :
    (Split (bucket ++ ":".toList ++ rest) ":".toList).head? = some bucket := by
  have e : ":".toList = [':'] := rfl
  rw [e]
  have : bucket ++ [':'] ++ rest = bucket ++ ':' :: rest := by simp
  rw [this, Split_singleton_append ':' bucket rest hb]
  rfl

theorem ne_nil_of_three_fields (l : GoString) (h : (Split l ":".toList).length = 3) : l ≠ [] := by
  intro e
  rw [e, length_Split_nil] at h
  omega

/-- C2. When the credential file is absent (old content empty) or is read
without error, `saveCredential` writes, with mode 0640, exactly the line
`bucket:akId:akSecret` and then, in their order and each followed by a
newline, the lines of the old content that have exactly 3 fields between `:`
and a first field other than the bucket; it returns what the write returns. -/
theorem saveCredential_content (h : Host) (tr : List Call) (options : OssOptions)
    (oldContent : GoString)
    (hold : (h.IsFileExisting tr CredentialFile = false ∧ oldContent = []) ∨
      (h.IsFileExisting tr CredentialFile = true ∧
        h.ReadFile (tr ++ [Call.IsFileExisting CredentialFile]) CredentialFile
          = (oldContent, none))) :
    ∃ tr2, saveCredential h tr options =
      (h.WriteFile tr2 CredentialFile
        (options.Bucket ++ ":".toList ++ options.AkId ++ ":".toList ++ options.AkSecret
          ++ "\n".toList
          ++ ((Split oldContent "\n".toList).filter (keptLine options.Bucket)).flatMap
              (· ++ "\n".toList)) 416,
       tr2 ++ [Call.WriteFile CredentialFile
        (options.Bucket ++ ":".toList ++ options.AkId ++ ":".toList ++ options.AkSecret
          ++ "\n".toList
          ++ ((Split oldContent "\n".toList).filter (keptLine options.Bucket)).flatMap
              (· ++ "\n".toList)) 416]) := by
  obtain ⟨tr2, h2⟩ := saveCredential_eq h tr options oldContent hold
  exact ⟨tr2, by rw [h2, newContent_eq]⟩

/-- C2, the example of the specification: the file holds `b1:id1:sec1`, the
upsert of `(b2, id2, sec2)` writes `b2:id2:sec2\nb1:id1:sec1\n`; and on a host
without the file the same upsert writes `b2:id2:sec2\n`. -/
theorem saveCredential_content_witness :
    (∃ tr2, saveCredential (credentialHost "b1:id1:sec1".toList) []
        { plainOptions with Bucket := "b2".toList, AkId := "id2".toList, AkSecret := "sec2".toList }
      = (none, tr2 ++ [Call.WriteFile CredentialFile "b2:id2:sec2\nb1:id1:sec1\n".toList 416])) ∧
    saveCredential quietHost []
        { plainOptions with Bucket := "b2".toList, AkId := "id2".toList, AkSecret := "sec2".toList }
      = (none, [Call.IsFileExisting CredentialFile,
          Call.WriteFile CredentialFile "b2:id2:sec2\n".toList 416]) := by
  refine ⟨?_, by decide⟩
  obtain ⟨tr2, h2⟩ := saveCredential_content (credentialHost "b1:id1:sec1".toList) []
    { plainOptions with Bucket := "b2".toList, AkId := "id2".toList, AkSecret := "sec2".toList }
    "b1:id1:sec1".toList (Or.inr ⟨by decide, by decide⟩)
  refine ⟨tr2, ?_⟩
  have e : ("b2".toList ++ ":".toList ++ "id2".toList ++ ":".toList ++ "sec2".toList
      ++ "\n".toList
      ++ ((Split "b1:id1:sec1".toList "\n".toList).filter (keptLine "b2".toList)).flatMap
          (· ++ "\n".toList)) = "b2:id2:sec2\nb1:id1:sec1\n".toList := by decide
  rw [h2]
  exact Prod.ext rfl (congrArg (fun c => tr2 ++ [Call.WriteFile CredentialFile c 416]) e)

/-- C3, as stated, fails, at two inputs.  The file holds the one record
`b1:id1:sec1`, and the upsert of bucket `b2` with an `akId` that contains a
newline, `i\nb1:j`, writes a content with two lines, both of 3 fields, whose
first field is `b1`.  The file holds the one record `a:x:y`, and the upsert of
the bucket `a:b` writes a content with two lines whose first field is `a` and
no line whose first field is `a:b`. -/
theorem saveCredential_newline_counterexample :
    ((∀ name, (recordsFor "b1:id1:sec1".toList name).length ≤ 1) ∧
      saveCredential (credentialHost "b1:id1:sec1".toList) []
          { plainOptions with
            Bucket := "b2".toList, AkId := "i\nb1:j".toList, AkSecret := "s".toList }
        = (none, [Call.IsFileExisting CredentialFile, Call.ReadFile CredentialFile,
            Call.WriteFile CredentialFile "b2:i\nb1:j:s\nb1:id1:sec1\n".toList 416]) ∧
      linesFor "b2:i\nb1:j:s\nb1:id1:sec1\n".toList "b1".toList
        = ["b1:j:s".toList, "b1:id1:sec1".toList] ∧
      recordsFor "b2:i\nb1:j:s\nb1:id1:sec1\n".toList "b1".toList
        = ["b1:j:s".toList, "b1:id1:sec1".toList] ∧
      ¬ (linesFor "b2:i\nb1:j:s\nb1:id1:sec1\n".toList "b1".toList).length ≤ 1) ∧
    ((∀ name, (recordsFor "a:x:y".toList name).length ≤ 1) ∧
      saveCredential (credentialHost "a:x:y".toList) []
          { plainOptions with Bucket := "a:b".toList, AkId := "i".toList, AkSecret := "s".toList }
        = (none, [Call.IsFileExisting CredentialFile, Call.ReadFile CredentialFile,
            Call.WriteFile CredentialFile "a:b:i:s\na:x:y\n".toList 416]) ∧
      linesFor "a:b:i:s\na:x:y\n".toList "a".toList = ["a:b:i:s".toList, "a:x:y".toList] ∧
      linesFor "a:b:i:s\na:x:y\n".toList "a:b".toList = []) := by
  refine ⟨⟨?_, by decide, by decide, by decide, by decide⟩, ?_, by decide, by decide, by decide⟩
  · intro name
    have e : Split "b1:id1:sec1".toList "\n".toList = ["b1:id1:sec1".toList] := by decide
    unfold recordsFor
    rw [e]
    exact (List.length_filter_le _ _)
  · intro name
    have e : Split "a:x:y".toList "\n".toList = ["a:x:y".toList] := by decide
    unfold recordsFor
    rw [e]
    exact (List.length_filter_le _ _)

/-- C3, amended. Let the bucket contain neither `:` nor a newline and `akId`,
`akSecret` no newline, and let the old content (empty when the file is absent)
have at most one 3-field line per bucket name.  Then the content
`saveCredential` writes has, for every name, at most one non-empty line whose
first field is that name, hence at most one 3-field line; for the upserted
bucket that line is the new record `bucket:akId:akSecret`. -/
theorem saveCredential_one_record_per_bucket (h : Host) (tr : List Call)
    (options : OssOptions) (oldContent : GoString)
    (hold : (h.IsFileExisting tr CredentialFile = false ∧ oldContent = []) ∨
      (h.IsFileExisting tr CredentialFile = true ∧
        h.ReadFile (tr ++ [Call.IsFileExisting CredentialFile]) CredentialFile
          = (oldContent, none)))
    (hbc : ':' ∉ options.Bucket) (hb : '\n' ∉ options.Bucket)
    (hi : '\n' ∉ options.AkId) (hs : '\n' ∉ options.AkSecret)
    (hinv : ∀ name, (recordsFor oldContent name).length ≤ 1) :
    ∃ tr2 content,
      saveCredential h tr options =
        (h.WriteFile tr2 CredentialFile content 416,
          tr2 ++ [Call.WriteFile CredentialFile content 416]) ∧
      (∀ name, (linesFor content name).length ≤ 1) ∧
      (∀ name, (recordsFor content name).length ≤ 1) ∧
      linesFor content options.Bucket =
        [options.Bucket ++ ":".toList ++ options.AkId ++ ":".toList ++ options.AkSecret] := by
  obtain ⟨tr2, h2⟩ := saveCredential_eq h tr options oldContent hold
  refine ⟨tr2, newContent options oldContent, h2, ?_⟩
  have hsplit := Split_newContent options oldContent hb hi hs
  have hhead : (Split (options.Bucket ++ ":".toList ++ options.AkId ++ ":".toList
      ++ options.AkSecret) ":".toList).head? = some options.Bucket := by
    have := head_Split_record options.Bucket (options.AkId ++ ":".toList ++ options.AkSecret) hbc
    simpa using this
  have hne : options.Bucket ++ ":".toList ++ options.AkId ++ ":".toList ++ options.AkSecret
      ≠ [] := by
    simp
  have hfirst : ∀ name, hasFirstField name (options.Bucket ++ ":".toList ++ options.AkId
      ++ ":".toList ++ options.AkSecret) = decide (options.Bucket = name) := by
    intro name
    unfold hasFirstField
    rw [hhead]
    simp
  have hnil : ∀ name, hasFirstField name [] = false := by
    intro name
    simp [hasFirstField]
  -- the non-empty lines for a name, computed on the three parts of the new content
  have hlines : ∀ name, linesFor (newContent options oldContent) name =
      (if options.Bucket = name then
        [options.Bucket ++ ":".toList ++ options.AkId ++ ":".toList ++ options.AkSecret]
       else []) ++
      ((Split oldContent "\n".toList).filter (keptLine options.Bucket)).filter
        (hasFirstField name) := by
    intro name
    unfold linesFor
    rw [hsplit, List.filter_cons, List.filter_append, hfirst, List.filter_cons, hnil]
    by_cases hn : options.Bucket = name
    · simp only [hn, decide_True, if_true]
      simp
    · simp only [hn, decide_False, if_false]
      simp
  have hself : ((Split oldContent "\n".toList).filter (keptLine options.Bucket)).filter
      (hasFirstField options.Bucket) = [] := by
    rw [List.filter_filter, List.filter_eq_nil_iff]
    intro l _
    simp only [keptLine, hasFirstField, Bool.and_eq_true, decide_eq_true_eq]
    tauto
  have hother : ∀ name, options.Bucket ≠ name →
      ((Split oldContent "\n".toList).filter (keptLine options.Bucket)).filter
        (hasFirstField name) = recordsFor oldContent name := by
    intro name hn
    unfold recordsFor
    rw [List.filter_filter]
    apply List.filter_congr
    intro l _
    rw [Bool.eq_iff_iff]
    simp only [keptLine, hasFirstField, isRecordFor, Bool.and_eq_true, decide_eq_true_eq]
    constructor
    · rintro ⟨⟨_, h1⟩, h3, _⟩
      exact ⟨h3, h1⟩
    · rintro ⟨h3, h1⟩
      refine ⟨⟨ne_nil_of_three_fields l h3, h1⟩, h3, ?_⟩
      rw [h1]
      intro e
      exact hn (Option.some.inj e).symm
  have hall : ∀ name, (linesFor (newContent options oldContent) name).length ≤ 1 := by
    intro name
    rw [hlines]
    by_cases hn : options.Bucket = name
    · subst hn
      rw [hself]
      simp
    · rw [hother name hn, if_neg hn]
      simpa using hinv name
  refine ⟨hall, ?_, ?_⟩
  · intro name
    refine Nat.le_trans ?_ (hall name)
    unfold recordsFor linesFor
    apply List.Sublist.length_le
    apply List.monotone_filter_right
    intro l hl
    simp only [isRecordFor, hasFirstField, decide_eq_true_eq] at hl ⊢
    exact ⟨ne_nil_of_three_fields l hl.1, hl.2⟩
  · rw [hlines, hself]
    simp

/-- C3, amended, at the example of the specification: after `b1`, the upsert
of `b2` leaves one line for each, with the line of `b2` first. -/
theorem saveCredential_one_record_per_bucket_witness :
    ∃ tr2 content,
      saveCredential (credentialHost "b1:id1:sec1".toList) []
          { plainOptions with Bucket := "b2".toList, AkId := "id2".toList, AkSecret := "sec2".toList }
        = (none, tr2 ++ [Call.WriteFile CredentialFile content 416]) ∧
      (∀ name, (linesFor content name).length ≤ 1) ∧
      linesFor content "b2".toList = ["b2:id2:sec2".toList] := by
  obtain ⟨tr2, content, h2, h3, _, h5⟩ := saveCredential_one_record_per_bucket
    (credentialHost "b1:id1:sec1".toList) []
    { plainOptions with Bucket := "b2".toList, AkId := "id2".toList, AkSecret := "sec2".toList }
    "b1:id1:sec1".toList (Or.inr ⟨by decide, by decide⟩)
    (by decide) (by decide) (by decide) (by decide)
    (by
      intro name
      have e : Split "b1:id1:sec1".toList "\n".toList = ["b1:id1:sec1".toList] := by decide
      unfold recordsFor
      rw [e]
      exact (List.length_filter_le _ _))
  exact ⟨tr2, content, h2, h3, h5⟩

/-! ## Option validation -/

/-- The format checks fail exactly on a bad `OtherOpts`, `Uid` or `Gid`; when
they pass, only an empty `Uid` or `Gid` has changed, to `0`. -/
theorem checkFormats_spec (opt : OssOptions) :
    ((checkFormats opt).1 ≠ none ↔
      ((opt.OtherOpts ≠ [] ∧ HasPrefix opt.OtherOpts "-o ".toList = false) ∨
        (opt.Uid ≠ [] ∧ Atoi opt.Uid = none) ∨
        (opt.Gid ≠ [] ∧ Atoi opt.Gid = none))) ∧
    ((checkFormats opt).1 = none →
      (checkFormats opt).2.Bucket = opt.Bucket ∧
      (checkFormats opt).2.Url = opt.Url ∧
      (checkFormats opt).2.SubPath = opt.SubPath ∧
      (checkFormats opt).2.VolumeName = opt.VolumeName ∧
      (checkFormats opt).2.OtherOpts = opt.OtherOpts ∧
      (checkFormats opt).2.Uid = (if opt.Uid = [] then "0".toList else opt.Uid) ∧
      (checkFormats opt).2.Gid = (if opt.Gid = [] then "0".toList else opt.Gid)) := by
  by_cases hO : opt.OtherOpts = [] <;>
  by_cases hP : HasPrefix opt.OtherOpts "-o ".toList = true <;>
  by_cases h3 : opt.Uid = [] <;>
  by_cases h4 : opt.Gid = [] <;>
  by_cases h5 : Atoi opt.Uid = none <;>
  by_cases h6 : Atoi opt.Gid = none <;>
  simp_all [checkFormats]

/-- Past the URL / bucket check and the secrets, `checkOptions` is
`checkFormats` of options that differ from the given ones in `AkId` and
`AkSecret` at most. -/
theorem checkOptions_eq_checkFormats (h : Host) (tr : List Call) (opt : OssOptions)
    (hU : opt.Url ≠ []) (hB : opt.Bucket ≠ [])
    (hsecrets : (opt.SecretAkId = [] ∨ opt.SecretAkSec = []) ∨
      ((DecodeString opt.SecretAkId).isSome ∧ (DecodeString opt.SecretAkSec).isSome)) :
    ∃ opt1, opt1.Bucket = opt.Bucket ∧ opt1.Url = opt.Url ∧ opt1.SubPath = opt.SubPath ∧
      opt1.VolumeName = opt.VolumeName ∧ opt1.OtherOpts = opt.OtherOpts ∧
      opt1.Uid = opt.Uid ∧ opt1.Gid = opt.Gid ∧
      (checkOptions h tr opt).1 = (checkFormats opt1).1 ∧
      (checkOptions h tr opt).2.1 = (checkFormats opt1).2 := by
  have hUB : ¬ (opt.Url = [] ∨ opt.Bucket = []) := by tauto
  by_cases hboth : opt.SecretAkId ≠ [] ∧ opt.SecretAkSec ≠ []
  · have hdec : (DecodeString opt.SecretAkId).isSome ∧ (DecodeString opt.SecretAkSec).isSome := by
      rcases hsecrets with h1 | h1
      · tauto
      · exact h1
    obtain ⟨tmpId, hId⟩ := Option.isSome_iff_exists.mp hdec.1
    obtain ⟨tmpSec, hSec⟩ := Option.isSome_iff_exists.mp hdec.2
    by_cases hak : tmpId = [] ∨ tmpSec = []
    · refine ⟨{ opt with AkId := (h.GetLocalAK tr).1, AkSecret := (h.GetLocalAK tr).2 },
        rfl, rfl, rfl, rfl, rfl, rfl, rfl, ?_, ?_⟩ <;>
      simp [checkOptions, hUB, hboth, hId, hSec, hak]
    · refine ⟨{ opt with AkId := tmpId, AkSecret := tmpSec },
        rfl, rfl, rfl, rfl, rfl, rfl, rfl, ?_, ?_⟩ <;>
      simp [checkOptions, hUB, hboth, hId, hSec, hak]
  · by_cases hak : opt.AkId = [] ∨ opt.AkSecret = []
    · refine ⟨{ opt with AkId := (h.GetLocalAK tr).1, AkSecret := (h.GetLocalAK tr).2 },
        rfl, rfl, rfl, rfl, rfl, rfl, rfl, ?_, ?_⟩ <;>
      simp [checkOptions, hUB, hboth, hak]
    · refine ⟨opt, rfl, rfl, rfl, rfl, rfl, rfl, rfl, ?_, ?_⟩ <;>
      simp [checkOptions, hUB, hboth, hak]

/-- C4. With no secret field supplied, `checkOptions` fails exactly when the
URL is empty, or the bucket is empty, or `OtherOpts` is non-empty and does not
begin with `-o `, or `Uid` is non-empty and `strconv.Atoi` rejects it, or `Gid`
is non-empty and `strconv.Atoi` rejects it; when it succeeds it leaves
`Bucket`, `Url`, `SubPath`, `VolumeName` and `OtherOpts` as they were and has
replaced an empty `Uid` or `Gid` by `0`. -/
theorem checkOptions_without_secrets (h : Host) (tr : List Call) (opt : OssOptions)
    (hid : opt.SecretAkId = []) (_hsec : opt.SecretAkSec = []) :
    ((checkOptions h tr opt).1 ≠ none ↔
      (opt.Url = [] ∨ opt.Bucket = [] ∨
        (opt.OtherOpts ≠ [] ∧ HasPrefix opt.OtherOpts "-o ".toList = false) ∨
        (opt.Uid ≠ [] ∧ Atoi opt.Uid = none) ∨
        (opt.Gid ≠ [] ∧ Atoi opt.Gid = none))) ∧
    ((checkOptions h tr opt).1 = none →
      (checkOptions h tr opt).2.1.Bucket = opt.Bucket ∧
      (checkOptions h tr opt).2.1.Url = opt.Url ∧
      (checkOptions h tr opt).2.1.SubPath = opt.SubPath ∧
      (checkOptions h tr opt).2.1.VolumeName = opt.VolumeName ∧
      (checkOptions h tr opt).2.1.OtherOpts = opt.OtherOpts ∧
      (checkOptions h tr opt).2.1.Uid = (if opt.Uid = [] then "0".toList else opt.Uid) ∧
      (checkOptions h tr opt).2.1.Gid = (if opt.Gid = [] then "0".toList else opt.Gid)) := by
  by_cases h1 : opt.Url = [] ∨ opt.Bucket = []
  · have : checkOptions h tr opt = (some "Oss: Url or bucket is empty".toList, opt, tr) := by
      simp only [checkOptions]
      rw [if_pos h1]
    rw [this]
    constructor
    · simp only [ne_eq, reduceCtorEq, not_false_eq_true, true_iff]
      tauto
    · intro hc
      simp at hc
  · have hU : opt.Url ≠ [] := fun e => h1 (Or.inl e)
    have hB : opt.Bucket ≠ [] := fun e => h1 (Or.inr e)
    obtain ⟨opt1, e1, e2, e3, e4, e5, e6, e7, e8, e9⟩ :=
      checkOptions_eq_checkFormats h tr opt hU hB (Or.inl (Or.inl hid))
    have hf := checkFormats_spec opt1
    rw [e8, e9]
    rw [e1, e2, e3, e4, e5, e6, e7] at hf
    refine ⟨?_, hf.2⟩
    rw [hf.1]
    constructor
    · intro hx
      exact Or.inr (Or.inr hx)
    · rintro (hx | hx | hx)
      · exact absurd hx hU
      · exact absurd hx hB
      · exact hx

/-- C4 at concrete option sets: the plain request passes and gets `0` for its
empty `Uid`; the same request with `Uid` set to `abc` fails. -/
theorem checkOptions_without_secrets_witness :
    (checkOptions quietHost [] plainOptions).1 = none ∧
    (checkOptions quietHost [] plainOptions).2.1.Uid = "0".toList ∧
    (checkOptions quietHost [] { plainOptions with Uid := "abc".toList }).1 ≠ none := by
  refine ⟨by decide, ?_, ?_⟩
  · exact ((checkOptions_without_secrets quietHost [] plainOptions rfl rfl).2 (by decide)).2.2.2.2.2.1
  · exact (checkOptions_without_secrets quietHost []
      { plainOptions with Uid := "abc".toList } rfl rfl).1.mpr
      (Or.inr (Or.inr (Or.inr (Or.inl ⟨by decide, by decide⟩))))

/-- C5, as stated, fails: with URL and bucket set, a lone `SecretAkId` (or a
lone `SecretAkSec`) that is not base64 passes validation. -/
theorem checkOptions_lone_secret_counterexample :
    DecodeString "!".toList = none ∧
    (checkOptions quietHost [] { plainOptions with SecretAkId := "!".toList }).1 = none ∧
    (checkOptions quietHost [] { plainOptions with SecretAkSec := "!".toList }).1 = none := by
  decide

/-- C5, amended. With URL and bucket set and both secret fields supplied,
`checkOptions` fails when either of them is not valid standard base64, with
the decode error of the first one that is not. -/
theorem checkOptions_secrets_decoded (h : Host) (tr : List Call) (opt : OssOptions)
    (hU : opt.Url ≠ []) (hB : opt.Bucket ≠ [])
    (hid : opt.SecretAkId ≠ []) (hsec : opt.SecretAkSec ≠ [])
    (hbad : DecodeString opt.SecretAkId = none ∨ DecodeString opt.SecretAkSec = none) :
    (checkOptions h tr opt).1 =
      some (if DecodeString opt.SecretAkId = none then "Oss: SecretAkId decode error".toList
        else "Oss: SecretAkSec decode error".toList) := by
  cases h1 : DecodeString opt.SecretAkId with
  | none => simp [checkOptions, hU, hB, hid, hsec, h1]
  | some tmpId =>
    cases h2 : DecodeString opt.SecretAkSec with
    | none => simp [checkOptions, hU, hB, hid, hsec, h1, h2]
    | some tmpSec => simp [h1, h2] at hbad

/-- C5, amended, at a concrete option set: `SecretAkId` decodes, `SecretAkSec`
does not. -/
theorem checkOptions_secrets_decoded_witness :
    (checkOptions quietHost []
      { plainOptions with SecretAkId := "aWQ=".toList, SecretAkSec := "!".toList }).1
      = some "Oss: SecretAkSec decode error".toList := by
  have := checkOptions_secrets_decoded quietHost []
    { plainOptions with SecretAkId := "aWQ=".toList, SecretAkSec := "!".toList }
    (by decide) (by decide) (by decide) (by decide) (Or.inr (by decide))
  rw [this]
  decide

/-- C6, as stated, fails: the request with `Uid` set to `-5` passes
validation and keeps `-5`, a negative integer. -/
theorem checkOptions_negative_uid_counterexample :
    (checkOptions quietHost [] { plainOptions with Uid := "-5".toList }).1 = none ∧
    (checkOptions quietHost [] { plainOptions with Uid := "-5".toList }).2.1.Uid = "-5".toList ∧
    Atoi "-5".toList = some (-5) := by
  decide

/-- C6, amended. Whenever `checkOptions` succeeds, the resulting `Uid` and `Gid`
are `0` where the given one was empty and the given one otherwise, and
`strconv.Atoi` accepts each of them as an integer (of either sign). -/
theorem checkOptions_uid_gid_integers (h : Host) (tr : List Call) (opt : OssOptions)
    (hok : (checkOptions h tr opt).1 = none) :
    (checkOptions h tr opt).2.1.Uid = (if opt.Uid = [] then "0".toList else opt.Uid) ∧
    (checkOptions h tr opt).2.1.Gid = (if opt.Gid = [] then "0".toList else opt.Gid) ∧
    (∃ uid : Int, Atoi (checkOptions h tr opt).2.1.Uid = some uid) ∧
    (∃ gid : Int, Atoi (checkOptions h tr opt).2.1.Gid = some gid) := by
  have hUB : ¬ (opt.Url = [] ∨ opt.Bucket = []) := by
    intro hUB
    simp [checkOptions, hUB] at hok
  have hsecrets : (opt.SecretAkId = [] ∨ opt.SecretAkSec = []) ∨
      ((DecodeString opt.SecretAkId).isSome ∧ (DecodeString opt.SecretAkSec).isSome) := by
    by_cases hboth : opt.SecretAkId ≠ [] ∧ opt.SecretAkSec ≠ []
    · right
      cases h1 : DecodeString opt.SecretAkId with
      | none => simp [checkOptions, hUB, hboth, h1] at hok
      | some tmpId =>
        cases h2 : DecodeString opt.SecretAkSec with
        | none => simp [checkOptions, hUB, hboth, h1, h2] at hok
        | some tmpSec => simp
    · left
      by_cases hid : opt.SecretAkId = []
      · exact Or.inl hid
      · exact Or.inr (by_contra fun hsec => hboth ⟨hid, hsec⟩)
  obtain ⟨opt1, _, _, _, _, _, e6, e7, e8, e9⟩ :=
    checkOptions_eq_checkFormats h tr opt (fun e => hUB (Or.inl e)) (fun e => hUB (Or.inr e))
      hsecrets
  have hf := checkFormats_spec opt1
  rw [e8] at hok
  have hnot := mt hf.1.mpr (by simpa using hok)
  have hfields := hf.2 hok
  rw [e6, e7] at hfields hnot
  rw [e9]
  refine ⟨hfields.2.2.2.2.2.1, hfields.2.2.2.2.2.2, ?_, ?_⟩
  · rw [hfields.2.2.2.2.2.1]
    by_cases hu : opt.Uid = []
    · rw [if_pos hu]
      exact ⟨0, by decide⟩
    · rw [if_neg hu]
      cases hA : Atoi opt.Uid with
      | none => exact absurd (Or.inr (Or.inl ⟨hu, hA⟩)) hnot
      | some uid => exact ⟨uid, rfl⟩
  · rw [hfields.2.2.2.2.2.2]
    by_cases hg : opt.Gid = []
    · rw [if_pos hg]
      exact ⟨0, by decide⟩
    · rw [if_neg hg]
      cases hA : Atoi opt.Gid with
      | none => exact absurd (Or.inr (Or.inr ⟨hg, hA⟩)) hnot
      | some gid => exact ⟨gid, rfl⟩

/-- C6, amended, at a concrete option set: `Uid` is `-5`, `Gid` is empty. -/
theorem checkOptions_uid_gid_integers_witness :
    (checkOptions quietHost [] { plainOptions with Uid := "-5".toList }).2.1.Uid = "-5".toList ∧
    (checkOptions quietHost [] { plainOptions with Uid := "-5".toList }).2.1.Gid = "0".toList := by
  have := checkOptions_uid_gid_integers quietHost [] { plainOptions with Uid := "-5".toList }
    (by decide)
  exact ⟨this.1, this.2.1⟩

/-! ## Mount and unmount -/

/-- C7, the failing input: the mount path ends in `vol1`, the request names the
volume `pv-oss`.  `Mount` mounts the bucket on `/oss/ABC~pv-oss`; `Unmount` of
the same mount path looks for `/oss/ABC~vol1` and, with `/oss/ABC~pv-oss`
mounted, returns success without unmounting anything. -/
theorem Mount_Unmount_paths_differ :
    Mount quietHost { plainOptions with VolumeName := "pv-oss".toList }
        "/var/lib/kubelet/pods/ABC/volumes/alicloud~oss/vol1".toList =
      (Result.Success,
        [Call.GetLocalAK,
         Call.IsMounted "/var/lib/kubelet/pods/ABC/volumes/alicloud~oss/vol1".toList,
         Call.CreateDest "/var/lib/kubelet/pods/ABC/volumes/alicloud~oss/vol1".toList,
         Call.IsFileExisting "/etc/passwd-ossfs".toList,
         Call.WriteFile "/etc/passwd-ossfs".toList "b:id:secret\n".toList 416,
         Call.CreateDest "/oss/ABC~pv-oss".toList,
         Call.IsMounted "/oss/ABC~pv-oss".toList,
         Call.Run "which systemd-run".toList,
         Call.Run
          "systemd-run --scope -- ossfs b /oss/ABC~pv-oss -ourl=u -o allow_other ".toList,
         Call.Remove "/var/lib/kubelet/pods/ABC/volumes/alicloud~oss/vol1".toList,
         Call.Symlink "/oss/ABC~pv-oss".toList
          "/var/lib/kubelet/pods/ABC/volumes/alicloud~oss/vol1".toList]) ∧
    Unmount (mountedHost "/oss/ABC~pv-oss".toList)
        "/var/lib/kubelet/pods/ABC/volumes/alicloud~oss/vol1".toList =
      (Result.Success,
        [Call.IsFileExisting "/var/lib/kubelet/pods/ABC/volume-subpaths/vol1".toList,
         Call.Remove "/var/lib/kubelet/pods/ABC/volumes/alicloud~oss/vol1".toList,
         Call.IsMounted "/oss/ABC~vol1".toList]) := by
  constructor <;> decide

/-- C8, the failing input: a mount path with a trailing separator.  The
resolver splits the path as given and answers `("volumes", "")`, while the
cleaned path resolves to `("ABC", "vol1")`. -/
theorem getPodInfoFromMountDir_not_cleaned :
    getPodInfoFromMountDir "/var/lib/kubelet/pods/ABC/volumes/driver/vol1/".toList
      = .ok ("volumes".toList, []) ∧
    Clean "/var/lib/kubelet/pods/ABC/volumes/driver/vol1/".toList
      = "/var/lib/kubelet/pods/ABC/volumes/driver/vol1".toList ∧
    getPodInfoFromMountDir (Clean "/var/lib/kubelet/pods/ABC/volumes/driver/vol1/".toList)
      = .ok ("ABC".toList, "vol1".toList) := by
  decide

/-- C10, the failing input: a mount path of the expected shape under the
kubelet directory `/data/pods-volumes`.  The identity resolver accepts it, but
the piece between the first `pods` and the next `volumes` is `-`, of length 1,
the slice `tmpPid[1 : len(tmpPid)-1]` is `tmpPid[1:0]`, and `Unmount` ends in
a run-time panic on every host, before any call. -/
theorem Unmount_panics (h : Host) :
    getPodInfoFromMountDir "/data/pods-volumes/pods/ABC/volumes/alicloud~oss/vol1".toList
      = .ok ("ABC".toList, "vol1".toList) ∧
    (Split ((Split "/data/pods-volumes/pods/ABC/volumes/alicloud~oss/vol1".toList
      "pods".toList).getD 1 []) "volumes".toList).getD 0 [] = "-".toList ∧
    slice "-".toList 1 ((("-".toList).length : Int) - 1) = none ∧
    checkSubpathVolumes h [] "/data/pods-volumes/pods/ABC/volumes/alicloud~oss/vol1".toList
      = none ∧
    Unmount h "/data/pods-volumes/pods/ABC/volumes/alicloud~oss/vol1".toList
      = (Result.Panic, []) := by
  have hd : (Split ((Split "/data/pods-volumes/pods/ABC/volumes/alicloud~oss/vol1".toList
      "pods".toList).getD 1 []) "volumes".toList) = ["-".toList, "/".toList] := by decide
  have hp : (Split "/data/pods-volumes/pods/ABC/volumes/alicloud~oss/vol1".toList
      "pods".toList).length ≥ 2 := by decide
  have hc : checkSubpathVolumes h []
      "/data/pods-volumes/pods/ABC/volumes/alicloud~oss/vol1".toList = none := by
    unfold checkSubpathVolumes
    simp only
    rw [if_pos hp, hd]
    rfl
  refine ⟨by decide, by rw [hd]; rfl, by decide, hc, ?_⟩
  unfold Unmount
  rw [hc]

end Oss
